import Mathlib

/-!
# Verification of the ALPSCore `alea` covariance accumulator core

Shallow embedding of the covariance accumulator engine of the repository
(`covariance.cpp`, lines 1282-1466 of the corpus; `internal/util.hpp`;
`computed.hpp`; `mpi.hpp`; `autocorr.hpp`), instantiated at the real scalar
case `T = double`, `Str` the default real strategy, where the strategy's
outer product is `outer(a,b)[i][j] = a[i]*b[j]`.

Machine doubles are modelled by exact rationals `ℚ`; `size_t` counters by
`ℕ`.  Division by zero in `ℚ` is total (yields 0) where IEEE doubles yield
NaN/Inf; no theorem below depends on the value produced by a zero-denominator
division, only on whether the surrounding operation signals an error.
C++ exceptions are modelled by `Except`: a method that can throw returns its
error (or its value) together with the post-state; since every `throw` in the
embedded code paths occurs before any mutation, an erroring call returns the
unchanged pre-state.
-/

namespace AlpsAlea

/-- Error conditions of the alea core (`core.hpp` exception taxonomy):
`finalized_accumulator` (thrown by `internal::check_valid`),
`size_mismatch` (thrown by the `computed` adapters), and
`out_of_range` (binning-level lookup below the sample floor). -/
inductive AleaError where
  | finalized_accumulator
  | size_mismatch
  | out_of_range
deriving DecidableEq, Repr

/-- Real-strategy outer product, `internal::outer<bind<Str,T>>(a, b)` for
`T = double`: the rank-one matrix `a[i] * b[j]`. -/
def outer {n : ℕ} (a b : Fin n → ℚ) : Fin n → Fin n → ℚ :=
  fun i j => a i * b j

/-- `cov_data<T,Str>`: the heap-owned data store of a covariance accumulator.
`data_` is the running sum (sum form) or the mean (mean form), `data2_` the
running sum of outer products (sum form) or the bias-corrected covariance
(mean form), `count_` the number of bundles folded in (`size_t`). -/
@[ext]
structure CovData (n : ℕ) where
  data : Fin n → ℚ
  data2 : Fin n → Fin n → ℚ
  count : ℕ

/-- `cov_data::reset()`: zero-fill both buffers, `count_ = 0`. The
constructor `cov_data(size)` produces exactly this state. -/
def CovData.reset {n : ℕ} (_d : CovData n) : CovData n :=
  { data := fun _ => 0, data2 := fun _ _ => 0, count := 0 }

/-- The zero-filled store produced by `cov_data(size)`. -/
def CovData.zero (n : ℕ) : CovData n :=
  { data := fun _ => 0, data2 := fun _ _ => 0, count := 0 }

/-- `cov_data::convert_to_mean()` (covariance.cpp:1304-1310):
`data_ /= count_; data2_ -= count_ * outer(data_, data_); data2_ /= count_ - 1;`
Note that `data_` is divided first, so the outer product is taken of the
*mean*.  `count_` is a `size_t`; we embed `count_ - 1` as `(count : ℚ) - 1`,
which agrees with the C++ value for every `count ≥ 1` (for `count = 0` the
C++ subtraction wraps; no theorem below evaluates `data2` at `count = 0`). -/
def CovData.convert_to_mean {n : ℕ} (d : CovData n) : CovData n :=
  let m : Fin n → ℚ := fun i => d.data i / (d.count : ℚ)
  { data := m
    data2 := fun i j => (d.data2 i j - (d.count : ℚ) * outer m m i j) / ((d.count : ℚ) - 1)
    count := d.count }

/-- `cov_data::convert_to_sum()` (covariance.cpp:1312-1318):
`data2_ *= count_ - 1; data2_ += count_ * outer(data_, data_); data_ *= count_;`
`data_` is still the mean when the outer product is taken. -/
def CovData.convert_to_sum {n : ℕ} (d : CovData n) : CovData n :=
  { data := fun i => d.data i * (d.count : ℚ)
    data2 := fun i j =>
      d.data2 i j * ((d.count : ℚ) - 1) + (d.count : ℚ) * outer d.data d.data i j
    count := d.count }

/-- Modelled from the spec: the `bundle` class of `util.hpp` is not among the
source files; only its use sites in `covariance.cpp` are.  Per the spec a
bundle buffer is "the partial sum of the `batch_size` raw samples not yet
completing a full bundle": a sum vector, a fill count, and the target
`batch_size` (capacity), with `reset()` zeroing sum and count and `is_full()`
comparing count against capacity. -/
@[ext]
structure Bundle (n : ℕ) where
  sum : Fin n → ℚ
  count : ℕ
  capacity : ℕ

/-- `bundle::reset()`: zero the partial sum and the fill count, keeping the
capacity (`batch_size`). -/
def Bundle.reset {n : ℕ} (b : Bundle n) : Bundle n :=
  { b with sum := fun _ => 0, count := 0 }

/-- `bundle::is_full()`: the bundle has collected `batch_size` samples. -/
def Bundle.is_full {n : ℕ} (b : Bundle n) : Bool :=
  b.capacity ≤ b.count

/-- `cov_acc<T,Str>`: covariance accumulator.  `store_` is a
`std::unique_ptr<cov_data>`, null exactly when the accumulator has been
finalized (`valid()` is `store_ != nullptr`); `current_` is the pending
bundle.  `uplevel_` is `nullptr` for a stand-alone accumulator (as set by
the constructor, covariance.cpp:1326-1330) and is modelled as absent. -/
structure CovAcc (n : ℕ) where
  store : Option (CovData n)
  current : Bundle n

/-- `cov_acc::valid()`: true while the accumulator owns its data store. -/
def CovAcc.valid {n : ℕ} (a : CovAcc n) : Bool :=
  a.store.isSome

/-- `internal::check_valid(acc)` (internal/util.hpp:14-19): throw
`finalized_accumulator` when `acc.valid()` is false. -/
def check_valid (valid : Bool) : Except AleaError Unit :=
  if valid then .ok () else .error .finalized_accumulator

/-- `vector_adapter<T>::add_to(sink)` (computed.hpp:68-74): if the sink size
differs from the vector size, throw `size_mismatch` *before any element is
written*; otherwise add the vector element-wise into the sink. -/
def vec_add_to {n : ℕ} (x : List ℚ) (out : Fin n → ℚ) :
    Except AleaError (Fin n → ℚ) :=
  if x.length ≠ n then .error .size_mismatch
  else .ok fun i => out i + x.getD i.val 0

/-- `cov_acc::add_bundle()` (covariance.cpp:1397-1412), `uplevel_ == nullptr`
case: divide the bundle sum by the bundle count to get the batch mean, fold
it into `data_`/`data2_` (outer product), increment the store count, and
reset the bundle. -/
def add_bundle {n : ℕ} (cur : Bundle n) (d : CovData n) : Bundle n × CovData n :=
  let m : Fin n → ℚ := fun i => cur.sum i / (cur.count : ℚ)
  (Bundle.reset { cur with sum := m },
   { data := fun i => d.data i + m i
     data2 := fun i j => d.data2 i j + outer m m i j
     count := d.count + 1 })

/-- `cov_acc::operator<<(const computed&)` (covariance.cpp:1359-1369) with a
`vector_adapter` source: `check_valid`; `source.add_to(...)` (which throws
`size_mismatch` before writing on length disagreement); `++current_.count()`;
flush via `add_bundle()` when the bundle is full.  The pair holds the thrown
error or `()` together with the post-state; every throw precedes mutation, so
an erroring call leaves the state unchanged. -/
def CovAcc.addOp {n : ℕ} (a : CovAcc n) (x : List ℚ) :
    Except AleaError Unit × CovAcc n :=
  match a.store with
  | none => (.error .finalized_accumulator, a)
  | some d =>
    match vec_add_to x a.current.sum with
    | .error e => (.error e, a)
    | .ok sum' =>
      let cur : Bundle n := { a.current with sum := sum', count := a.current.count + 1 }
      if cur.is_full then
        let fl := add_bundle cur d
        (.ok (), { store := some fl.2, current := fl.1 })
      else
        (.ok (), { store := some d, current := cur })

/-- `cov_result<T,Str>`: immutable snapshot; `store_` is released (null)
after a non-root reduction. -/
structure CovResult (n : ℕ) where
  store : Option (CovData n)

/-- `cov_result::valid()`. -/
def CovResult.valid {n : ℕ} (r : CovResult n) : Bool :=
  r.store.isSome

/-- `cov_acc::result() const` (covariance.cpp:1371-1378): `check_valid`; copy
the store into a fresh result; `convert_to_mean` on the copy only.  The
method is `const`: the accumulator state passes through untouched. -/
def CovAcc.resultOp {n : ℕ} (a : CovAcc n) :
    Except AleaError (CovResult n) × CovAcc n :=
  match a.store with
  | none => (.error .finalized_accumulator, a)
  | some d => (.ok ⟨some d.convert_to_mean⟩, a)

/-- `cov_acc::finalize()` / `finalize_to()` (covariance.cpp:1380-1395):
`check_valid`; swap the store into the result (leaving `store_` null, so the
accumulator becomes invalid); `convert_to_mean` on the moved store. -/
def CovAcc.finalizeOp {n : ℕ} (a : CovAcc n) :
    Except AleaError (CovResult n) × CovAcc n :=
  match a.store with
  | none => (.error .finalized_accumulator, a)
  | some d => (.ok ⟨some d.convert_to_mean⟩, { a with store := none })

/-- `cov_acc::reset()` (covariance.cpp:1349-1357): reset the pending bundle;
then either zero the existing store (valid case) or allocate a fresh
zero-filled `cov_data` of the original size (invalid case).  There is no
`check_valid` call: `reset()` never throws. -/
def CovAcc.resetOp {n : ℕ} (a : CovAcc n) : CovAcc n :=
  { current := a.current.reset
    store := match a.store with
             | some d => some d.reset
             | none => some (CovData.zero n) }

end AlpsAlea

namespace AlpsAlea

/-- C1: for a covariance data store with `count > 1`, `convert_to_mean`
produces `mean = sum / count` and bias-corrected covariance
`(sum_of_outer_products − count·mean⊗mean) / (count − 1)`. -/
theorem convert_to_mean_welford {n : ℕ} (d : CovData n) (_h : 1 < d.count) :
    (d.convert_to_mean).count = d.count ∧
    (∀ i, (d.convert_to_mean).data i = d.data i / (d.count : ℚ)) ∧
    (∀ i j, (d.convert_to_mean).data2 i j =
      (d.data2 i j - (d.count : ℚ) *
        ((d.convert_to_mean).data i * (d.convert_to_mean).data j)) /
      ((d.count : ℚ) - 1)) := by
  refine ⟨rfl, fun i => rfl, fun i j => rfl⟩

/-- Witness for `convert_to_mean_welford` at a concrete store. -/
theorem convert_to_mean_welford_witness :
    1 < (CovData.mk (n := 1) (fun _ => 6) (fun _ _ => 20) 2).count ∧
    (∀ i, ((CovData.mk (n := 1) (fun _ => 6) (fun _ _ => 20) 2).convert_to_mean).data i
      = 3) := by
  have h := convert_to_mean_welford (CovData.mk (n := 1) (fun _ => 6) (fun _ _ => 20) 2)
    (by norm_num)
  refine ⟨by norm_num, fun i => ?_⟩
  rw [h.2.1 i]
  norm_num

/-- C2: for `count > 1`, `convert_to_sum` exactly inverts `convert_to_mean`:
the round trip reconstructs the original sum-form store. -/
theorem convert_round_trip {n : ℕ} (d : CovData n) (h : 1 < d.count) :
    (d.convert_to_mean).convert_to_sum = d := by
  have hc : (d.count : ℚ) ≠ 0 := Nat.cast_ne_zero.mpr (by omega)
  have hc1 : (d.count : ℚ) - 1 ≠ 0 := by
    have : (1 : ℚ) < (d.count : ℚ) := by exact_mod_cast h
    intro habs
    rw [sub_eq_zero] at habs
    rw [habs] at this
    exact lt_irrefl _ this
  ext i j
  · show d.data i / (d.count : ℚ) * (d.count : ℚ) = d.data i
    field_simp
  · show ((d.data2 i j - (d.count : ℚ) * outer _ _ i j) / ((d.count : ℚ) - 1))
        * ((d.count : ℚ) - 1)
      + (d.count : ℚ) * outer (fun k => d.data k / (d.count : ℚ))
          (fun k => d.data k / (d.count : ℚ)) i j = d.data2 i j
    simp only [outer]
    field_simp
    ring
  · rfl

/-- Witness for `convert_round_trip` at a concrete store. -/
theorem convert_round_trip_witness :
    1 < (CovData.mk (n := 1) (fun _ => 6) (fun _ _ => 20) 2).count ∧
    ((CovData.mk (n := 1) (fun _ => 6) (fun _ _ => 20) 2).convert_to_mean).convert_to_sum
      = CovData.mk (n := 1) (fun _ => 6) (fun _ _ => 20) 2 :=
  ⟨by norm_num,
   convert_round_trip (CovData.mk (n := 1) (fun _ => 6) (fun _ _ => 20) 2) (by norm_num)⟩

/-- A fresh, valid covariance accumulator of size 1 with bundle capacity 2:
the state produced by `cov_acc<double>(1, 2)`.  Its store has `count = 0`. -/
def accFresh : CovAcc 1 :=
  { store := some (CovData.zero 1)
    current := { sum := fun _ => 0, count := 0, capacity := 2 } }

/-- The accumulator left behind by `accFresh.finalizeOp`: store released. -/
def accDead : CovAcc 1 :=
  { store := none
    current := { sum := fun _ => 0, count := 0, capacity := 2 } }

/-- The result moved out of `accFresh` by `finalize()`. -/
def resFresh : CovResult 1 :=
  ⟨some ((CovData.zero 1).convert_to_mean)⟩

/-- The bundle-fold step of `operator<<`: element-wise addition of the sample
into the pending bundle sum and increment of the bundle fill count (used only
to state what `addOp` does on the matching-size path). -/
def foldSample {n : ℕ} (cur : Bundle n) (x : List ℚ) : Bundle n :=
  { cur with sum := fun i => cur.sum i + x.getD i.val 0, count := cur.count + 1 }

/-- C6: once `finalize()` has succeeded the accumulator is invalid, and every
subsequent `operator<<`, `result()` or `finalize()` call on it fails with
`finalized_accumulator`, leaving the accumulator state unchanged. -/
theorem finalize_invalidates {n : ℕ} (a a' : CovAcc n) (r : CovResult n)
    (h : a.finalizeOp = (.ok r, a')) :
    a'.valid = false ∧
    (∀ x, a'.addOp x = (.error .finalized_accumulator, a')) ∧
    a'.resultOp = (.error .finalized_accumulator, a') ∧
    a'.finalizeOp = (.error .finalized_accumulator, a') := by
  cases ha : a.store with
  | none => simp [CovAcc.finalizeOp, ha] at h
  | some d =>
    simp only [CovAcc.finalizeOp, ha] at h
    have h2 : ({ a with store := none } : CovAcc n) = a' := congrArg Prod.snd h
    subst h2
    exact ⟨rfl, fun x => rfl, rfl, rfl⟩

/-- Witness for `finalize_invalidates` at the concrete accumulator. -/
theorem finalize_invalidates_witness :
    accFresh.finalizeOp = (.ok resFresh, accDead) ∧
    (accDead.valid = false ∧
     (∀ x, accDead.addOp x = (.error .finalized_accumulator, accDead)) ∧
     accDead.resultOp = (.error .finalized_accumulator, accDead) ∧
     accDead.finalizeOp = (.error .finalized_accumulator, accDead)) :=
  ⟨rfl, finalize_invalidates accFresh accDead resFresh rfl⟩

/-- C7: adding a sample whose length differs from the accumulator size fails
with `size_mismatch` and leaves the accumulator unchanged (the length check
in `vector_adapter::add_to` precedes every write, and the throw propagates
before `++current_.count()`); a matching sample is folded element-wise into
the pending bundle sum, the fill count is incremented, and a full bundle is
flushed into the store. -/
theorem add_size_guard {n : ℕ} (a : CovAcc n) (x : List ℚ) (d : CovData n)
    (hst : a.store = some d) :
    (x.length ≠ n → a.addOp x = (.error .size_mismatch, a)) ∧
    (x.length = n → a.addOp x =
      (.ok (),
       if (foldSample a.current x).is_full then
         { store := some (add_bundle (foldSample a.current x) d).2
           current := (add_bundle (foldSample a.current x) d).1 }
       else
         { store := some d, current := foldSample a.current x })) := by
  constructor
  · intro hx
    simp [CovAcc.addOp, hst, vec_add_to, hx]
  · intro hx
    simp only [CovAcc.addOp, hst, vec_add_to, hx]
    simp only [ne_eq, not_true_eq_false, if_false, foldSample]
    split <;> rfl

/-- Witness for `add_size_guard`: the empty sample has the wrong length for
a size-1 accumulator and is rejected without a state change. -/
theorem add_size_guard_witness :
    ([] : List ℚ).length ≠ 1 ∧
    accFresh.addOp [] = (.error .size_mismatch, accFresh) :=
  ⟨by decide, (add_size_guard accFresh [] (CovData.zero 1) rfl).1 (by decide)⟩

/-- C9: `result()` returns the snapshot converted to mean form while the
live accumulator passes through unchanged, so a later `operator<<` behaves
exactly as if `result()` had never been called. -/
theorem result_is_pure_snapshot {n : ℕ} (a : CovAcc n) (d : CovData n)
    (h : a.store = some d) :
    a.resultOp = (.ok ⟨some d.convert_to_mean⟩, a) ∧
    (∀ x, (a.resultOp).2.addOp x = a.addOp x) := by
  refine ⟨by simp [CovAcc.resultOp, h], fun x => by simp [CovAcc.resultOp, h]⟩

/-- Witness for `result_is_pure_snapshot` at the concrete accumulator. -/
theorem result_is_pure_snapshot_witness :
    accFresh.resultOp = (.ok ⟨some ((CovData.zero 1).convert_to_mean)⟩, accFresh) ∧
    (∀ x, (accFresh.resultOp).2.addOp x = accFresh.addOp x) :=
  result_is_pure_snapshot accFresh (CovData.zero 1) rfl

/-- C10: `reset()` on an invalid (finalized) accumulator does not fail with
`finalized_accumulator` (it performs no `check_valid`); it allocates a fresh
zero-filled store of the original size and restores a valid, empty state:
`valid()` true, `count = 0`, all buffers zero, pending bundle reset. -/
theorem reset_revives_invalid {n : ℕ} (a : CovAcc n) (h : a.valid = false) :
    (a.resetOp).valid = true ∧
    a.resetOp = { store := some (CovData.zero n), current := a.current.reset } := by
  have hs : a.store = none := by
    cases hs : a.store with
    | none => rfl
    | some d => rw [CovAcc.valid, hs] at h; simp at h
  constructor
  · simp [CovAcc.resetOp, CovAcc.valid, hs]
  · simp [CovAcc.resetOp, hs]

/-- Witness for `reset_revives_invalid` at the finalized accumulator. -/
theorem reset_revives_invalid_witness :
    accDead.valid = false ∧
    (accDead.resetOp).valid = true ∧
    accDead.resetOp = { store := some (CovData.zero 1)
                        current := accDead.current.reset } :=
  ⟨rfl, reset_revives_invalid accDead rfl⟩

/-- C3 counterexample: `result()` on a fresh, valid accumulator whose store
has `count = 0` does *not* fail and is not unreachable: the conversion to
mean form is executed (running the divisions by `count` and `count − 1` with
zero denominators) and a snapshot is returned.  The only guard on
`cov_acc::result` / `cov_data::convert_to_mean` is `check_valid`; there is
no check on `count`. -/
theorem result_count_zero_not_guarded :
    (CovData.zero 1).count = 0 ∧
    accFresh.store = some (CovData.zero 1) ∧
    (accFresh.resultOp).1 = .ok ⟨some ((CovData.zero 1).convert_to_mean)⟩ :=
  ⟨rfl, rfl, rfl⟩

/-- C3 amended: variance extraction via `result()`/`finalize()` is guarded
only against invalidity (`check_valid`); for every valid accumulator it
succeeds *regardless of `count`* — for `count ∈ {0, 1}` the divisions by
`count` and `count − 1` execute with zero denominators (NaN/Inf under IEEE
arithmetic); `count > 1` is an unchecked caller obligation. -/
theorem result_guard_only_validity {n : ℕ} (a : CovAcc n) (d : CovData n)
    (h : a.store = some d) :
    (a.resultOp).1 = .ok ⟨some d.convert_to_mean⟩ ∧
    (a.finalizeOp).1 = .ok ⟨some d.convert_to_mean⟩ := by
  exact ⟨by simp [CovAcc.resultOp, h], by simp [CovAcc.finalizeOp, h]⟩

/-- Witness for `result_guard_only_validity` at the count-0 accumulator. -/
theorem result_guard_only_validity_witness :
    (accFresh.resultOp).1 = .ok ⟨some ((CovData.zero 1).convert_to_mean)⟩ ∧
    (accFresh.finalizeOp).1 = .ok ⟨some ((CovData.zero 1).convert_to_mean)⟩ :=
  result_guard_only_validity accFresh (CovData.zero 1) rfl

/-- Element-wise sum of two participants' instances of one registered
buffer (the effect of `MPI_SUM` on a pair). -/
def addVec (a b : List ℚ) : List ℚ :=
  List.zipWith (fun x y => x + y) a b

/-- `mpi_reducer::inplace_reduce(sink)` (mpi.hpp:71-85): each call performs
the blocking collective `MPI_Reduce(..., MPI_SUM, root_, ...)` *immediately,
at registration time*.  The argument lists the participants' instances of the
one registered buffer, rank 0 (the default root) first: the root's buffer is
replaced in place by the element-wise sum over all participants, non-root
buffers are left as they are, and a zero-length buffer is skipped (the
"NO-OP in the case of empty data" branch). -/
def mpi_inplace_reduce (bufs : List (List ℚ)) : List (List ℚ) :=
  match bufs with
  | [] => []
  | rootBuf :: rest =>
    if rootBuf.length = 0 then rootBuf :: rest
    else (rest.foldl addVec rootBuf) :: rest

/-- `mpi_reducer::commit()` (mpi.hpp:62): the body is empty — `commit`
performs no communication and changes no buffer. -/
def mpi_commit (bufs : List (List ℚ)) : List (List ℚ) :=
  bufs

/-- Element-wise sum of two covariance data stores: the effect of the
transport's sum-reduction on the three registered buffers (`data_`,
`data2_`, `count_`) of two participants. -/
def CovData.addData {n : ℕ} (a b : CovData n) : CovData n :=
  { data := fun i => a.data i + b.data i
    data2 := fun i j => a.data2 i j + b.data2 i j
    count := a.count + b.count }

/-- Sum of a list of participants' covariance data stores. -/
def sumData {n : ℕ} (l : List (CovData n)) : CovData n :=
  l.foldr CovData.addData (CovData.zero n)

/-- `k` times a store, element-wise: the collective sum of `k` identical
contributions. -/
def CovData.scaleData {n : ℕ} (k : ℕ) (d : CovData n) : CovData n :=
  { data := fun i => (k : ℚ) * d.data i
    data2 := fun i j => (k : ℚ) * d.data2 i j
    count := k * d.count }

/-- `cov_result::reduce(r, pre_commit, post_commit)` (covariance.cpp:
1439-1460) run with both phases by every participant over a sum-reducing
transport, seen globally.  `locals` are the participants' (valid) stores in
mean/variance form, `pos` the participant's rank, rank 0 the root.
Pre-commit: each participant runs `convert_to_sum` and registers `data_`,
`data2_` and `count_`; the transport sums them element-wise into the root's
buffers.  Post-commit: the participant with `setup.have_result` converts the
globally summed store back to mean form; every other participant frees its
store (`store_.reset()`), leaving its result invalid. -/
def reduce_all {n : ℕ} (locals : List (CovData n)) (pos : ℕ) : CovResult n :=
  let summed := sumData (locals.map CovData.convert_to_sum)
  if pos = 0 then ⟨some summed.convert_to_mean⟩ else ⟨none⟩

/-- The transport sum of `k` identical contributions is `k` times one
contribution. -/
theorem sumData_replicate {n : ℕ} (k : ℕ) (d : CovData n) :
    sumData (List.replicate k d) = CovData.scaleData k d := by
  induction k with
  | zero =>
    ext i j
    · simp [sumData, CovData.scaleData, CovData.zero]
    · simp [sumData, CovData.scaleData, CovData.zero]
    · simp [sumData, CovData.scaleData, CovData.zero]
  | succ k ih =>
    have hstep : sumData (List.replicate (k + 1) d)
        = CovData.addData d (sumData (List.replicate k d)) := rfl
    rw [hstep, ih]
    ext i j
    · simp only [CovData.addData, CovData.scaleData]
      push_cast
      ring
    · simp only [CovData.addData, CovData.scaleData]
      push_cast
      ring
    · simp only [CovData.addData, CovData.scaleData]
      ring

/-- C4: reducing `k ≥ 1` identical local results (each in mean form with
positive count) through the full three-phase reduce over a sum transport
yields on the root a global count of `k ×` the local count and a global mean
equal to the per-worker mean; every non-root participant's result loses its
storage (becomes invalid). -/
theorem reduce_k_copies {n : ℕ} (k : ℕ) (d : CovData n)
    (hk : 1 ≤ k) (hc : 1 ≤ d.count) :
    ((reduce_all (List.replicate k d) 0).store.map CovData.count
        = some (k * d.count)) ∧
    (∀ i, ((reduce_all (List.replicate k d) 0).store.map (fun g => g.data i))
        = some (d.data i)) ∧
    (∀ pos, pos ≠ 0 → (reduce_all (List.replicate k d) pos).store = none) := by
  have hmap : (List.replicate k d).map CovData.convert_to_sum
      = List.replicate k d.convert_to_sum := by
    simp
  have hk0 : ((k : ℚ)) ≠ 0 := Nat.cast_ne_zero.mpr (by omega)
  have hc0 : ((d.count : ℚ)) ≠ 0 := Nat.cast_ne_zero.mpr (by omega)
  have hroot : reduce_all (List.replicate k d) 0
      = ⟨some ((CovData.scaleData k d.convert_to_sum).convert_to_mean)⟩ := by
    simp [reduce_all, hmap, sumData_replicate]
  refine ⟨?_, ?_, ?_⟩
  · rw [hroot]
    rfl
  · intro i
    rw [hroot]
    show some ((CovData.scaleData k d.convert_to_sum).convert_to_mean.data i)
      = some (d.data i)
    refine congrArg some ?_
    show (k : ℚ) * (d.data i * (d.count : ℚ)) / (((k * d.count : ℕ)) : ℚ) = d.data i
    push_cast
    field_simp
    ring
  · intro pos hpos
    simp [reduce_all, hpos]

/-- Witness for `reduce_k_copies`: two copies of a concrete mean-form local
result with count 2. -/
theorem reduce_k_copies_witness :
    ((reduce_all (List.replicate 2 (CovData.mk (n := 1) (fun _ => 3) (fun _ _ => 5) 2))
        0).store.map CovData.count = some 4) ∧
    (∀ i, ((reduce_all (List.replicate 2 (CovData.mk (n := 1) (fun _ => 3) (fun _ _ => 5) 2))
        0).store.map (fun g => g.data i)) = some 3) ∧
    (∀ pos, pos ≠ 0 →
      (reduce_all (List.replicate 2 (CovData.mk (n := 1) (fun _ => 3) (fun _ _ => 5) 2))
        pos).store = none) :=
  reduce_k_copies 2 (CovData.mk (n := 1) (fun _ => 3) (fun _ _ => 5) 2)
    (by norm_num) (by norm_num)

/-- C5 counterexample: with the MPI transport of mpi.hpp, `commit()` does
*not* perform the sum-reduction — it is an empty no-op — while the
registration call (`reduce`, i.e. `inplace_reduce`) performs the blocking
collective sum immediately: for participant buffers `[1]` (root) and `[2]`,
registration already turns the root's buffer into `[3]`, and `commit` on the
unreduced buffers produces no sum. -/
theorem commit_is_noop_counterexample :
    mpi_commit [[(1 : ℚ)], [2]] ≠ [[3], [2]] ∧
    mpi_inplace_reduce [[(1 : ℚ)], [2]] = [[3], [2]] := by
  constructor
  · norm_num [mpi_commit]
  · norm_num [mpi_inplace_reduce, addVec]

/-- C5 amended: in the MPI transport, the collective element-wise sum is
performed already by each pre-commit registration call (`inplace_reduce`
invokes the blocking `MPI_Reduce` at once, placing the sum in the root's
buffer), and `commit()` is a no-op on every buffer set. -/
theorem mpi_sum_at_registration (a b : List ℚ) (hne : a.length ≠ 0) :
    mpi_inplace_reduce [a, b] = [addVec a b, b] ∧
    (∀ bufs, mpi_commit bufs = bufs) := by
  refine ⟨?_, fun _ => rfl⟩
  simp only [mpi_inplace_reduce]
  rw [if_neg hne]
  rfl

/-- Witness for `mpi_sum_at_registration` at concrete one-element buffers. -/
theorem mpi_sum_at_registration_witness :
    mpi_inplace_reduce [[(1 : ℚ)], [2]] = [addVec [1] [2], [2]] ∧
    (∀ bufs, mpi_commit bufs = bufs) :=
  mpi_sum_at_registration [1] [2] (by norm_num)

/-- `autocorr_result::default_min_samples` (autocorr.hpp:182): the default
reliability threshold, in samples, used by the tau/stderror level
selection. -/
def default_min_samples : ℕ := 256

/-- Modelled from the spec: the body of `autocorr_result::find_level` is not
among the source files (autocorr.hpp:168 only declares it).  Per the spec it
is a "pure lookup ... over level sample counts" that "returns the coarsest
level index whose count ≥ min_samples, or fails with OutOfRange if none
qualifies".  `counts` lists the per-level sample counts, level 0 (finest,
smallest batch) first; coarser levels have larger indices and larger batch
sizes, so the scan runs from the last level downward.  The fuel argument is
the number of levels still to inspect. -/
def find_level_aux (counts : List ℕ) (min_samples : ℕ) : ℕ → Except AleaError ℕ
  | 0 => .error .out_of_range
  | i + 1 =>
    if min_samples ≤ counts.getD i 0 then .ok i
    else find_level_aux counts min_samples i

/-- Modelled from the spec: `autocorr_result::find_level(min_samples)` — see
`find_level_aux`. -/
def find_level (counts : List ℕ) (min_samples : ℕ) : Except AleaError ℕ :=
  find_level_aux counts min_samples counts.length

/-- A successful scan returns an in-range index meeting the floor, with every
coarser inspected level below the floor. -/
theorem find_level_aux_ok (counts : List ℕ) (m : ℕ) :
    ∀ k i, find_level_aux counts m k = .ok i →
      i < k ∧ m ≤ counts.getD i 0 ∧
      ∀ j, i < j → j < k → counts.getD j 0 < m := by
  intro k
  induction k with
  | zero => intro i h; exact absurd h (by simp [find_level_aux])
  | succ k ih =>
    intro i h
    rw [find_level_aux] at h
    by_cases hm : m ≤ counts.getD k 0
    · rw [if_pos hm] at h
      obtain rfl : k = i := Except.ok.inj h
      exact ⟨Nat.lt_succ_self k, hm, fun j hj1 hj2 => absurd hj2 (by omega)⟩
    · rw [if_neg hm] at h
      obtain ⟨h1, h2, h3⟩ := ih i h
      refine ⟨by omega, h2, fun j hj1 hj2 => ?_⟩
      rcases Nat.lt_succ_iff_lt_or_eq.mp hj2 with hj | rfl
      · exact h3 j hj1 hj
      · omega

/-- The scan fails with `out_of_range` exactly when every inspected level is
below the floor. -/
theorem find_level_aux_err (counts : List ℕ) (m : ℕ) :
    ∀ k, find_level_aux counts m k = .error .out_of_range ↔
      ∀ j, j < k → counts.getD j 0 < m := by
  intro k
  induction k with
  | zero => simp [find_level_aux]
  | succ k ih =>
    rw [find_level_aux]
    by_cases hm : m ≤ counts.getD k 0
    · rw [if_pos hm]
      constructor
      · intro h; exact absurd h (by simp)
      · intro h; exact absurd (h k (Nat.lt_succ_self k)) (by omega)
    · rw [if_neg hm]
      rw [ih]
      constructor
      · intro h j hj
        rcases Nat.lt_succ_iff_lt_or_eq.mp hj with hj' | rfl
        · exact h j hj'
        · omega
      · intro h j hj
        exact h j (by omega)

/-- C8: `find_level(min_samples)` returns the coarsest (largest-index, hence
largest batch size) level whose sample count meets the floor — the returned
index is in range, meets the floor, and every coarser level misses it — and
fails with `out_of_range` exactly when no level meets the floor; the default
threshold `default_min_samples` is 256. -/
theorem find_level_coarsest (counts : List ℕ) (m : ℕ) :
    default_min_samples = 256 ∧
    (∀ i, find_level counts m = .ok i →
      i < counts.length ∧ m ≤ counts.getD i 0 ∧
      ∀ j, i < j → j < counts.length → counts.getD j 0 < m) ∧
    (find_level counts m = .error .out_of_range ↔
      ∀ j, j < counts.length → counts.getD j 0 < m) := by
  exact ⟨rfl, fun i h => find_level_aux_ok counts m counts.length i h,
    find_level_aux_err counts m counts.length⟩

/-- Witness for `find_level_coarsest`: counts `[300, 260, 100]` with floor
256 select level 1, the coarsest level with at least 256 samples. -/
theorem find_level_coarsest_witness :
    1 < ([300, 260, 100] : List ℕ).length ∧
    256 ≤ ([300, 260, 100] : List ℕ).getD 1 0 := by
  have h := (find_level_coarsest [300, 260, 100] 256).2.1 1 rfl
  exact ⟨h.1, h.2.1⟩

end AlpsAlea
